import Mathlib

/-!
Shallow embedding of the RV32I instruction-level simulator core
(`src/src/lib.rs`, `struct RiscvCpu` and its methods).

Machine integers are modelled as `Nat` (u32 bit patterns, reduced mod `2^32`
where the source wraps) and `Int` (i32 values obtained by reinterpreting a
u32 pattern).  Register and memory reads/writes that can panic in Rust
(out-of-bounds indexing, invalid-encoding `panic!` arms) are modelled with
`Option` (`none` = panic), except `store`, which returns the memory as
mutated up to the failing byte write together with a success flag, because
the Rust code performs its byte writes one at a time and a later write can
panic after an earlier one already mutated memory.  Rust's plain `+` and
`<<` on machine integers are modelled with two's-complement wrapping (the
defined overflow behaviour when the program does not abort).
-/

/-- W is 2^32, the modulus of unsigned 32-bit arithmetic. -/
def W : Nat := 4294967296

/-- H is 2^31, the first bit pattern that is negative as an i32. -/
def H : Nat := 2147483648

/-- toI32 reinterprets a u32 bit pattern as a signed i32 value (Rust `as i32`). -/
def toI32 (n : Nat) : Int := if n < H then (n : Int) else (n : Int) - (W : Int)

/-- toU32 casts a signed integer to a u32 bit pattern, reducing mod 2^32 (Rust `as u32`). -/
def toU32 (i : Int) : Nat := (i % (W : Int)).toNat

/-- toI8 reinterprets the low 8 bits of a value as a signed i8, widened to Int
(Rust `as i8 as i32`). -/
def toI8 (n : Nat) : Int := if n % 256 < 128 then ((n % 256 : Nat) : Int) else ((n % 256 : Nat) : Int) - 256

/-- toI16 reinterprets the low 16 bits of a value as a signed i16, widened to Int
(Rust `as i16 as i32`). -/
def toI16 (n : Nat) : Int := if n % 65536 < 32768 then ((n % 65536 : Nat) : Int) else ((n % 65536 : Nat) : Int) - 65536

/-- sra is the arithmetic right shift of an i32 value (Rust `>>` on i32):
floor division by a power of two. -/
def sra (i : Int) (k : Nat) : Int := i / ((2 : Int) ^ k)

/-- wsub is u32 wrapping subtraction (Rust `u32::wrapping_sub`). -/
def wsub (a b : Nat) : Nat := (a + (W - b % W)) % W

/-- MemSize mirrors `enum MemSize` of the source. -/
inductive MemSize where
  | byte
  | half
  | word
  deriving DecidableEq

/-- RiscvCpu mirrors `struct RiscvCpu`: 32 registers, program counter, and the
flat byte memory `bus` (a `Vec<u8>` in the source). -/
structure RiscvCpu where
  regs : List Nat
  pc : Nat
  bus : List Nat
  deriving DecidableEq

/-- opcode extracts the low 7 bits of an instruction word. -/
def opcode (i : Nat) : Nat := i &&& 0x7f

/-- rdOf extracts the destination register field, bits 11:7. -/
def rdOf (i : Nat) : Nat := (i >>> 7) &&& 0x1F

/-- funct3 extracts bits 14:12. -/
def funct3 (i : Nat) : Nat := (i >>> 12) &&& 0x7

/-- rs1Of extracts bits 19:15. -/
def rs1Of (i : Nat) : Nat := (i >>> 15) &&& 0x1F

/-- rs2Of extracts bits 24:20. -/
def rs2Of (i : Nat) : Nat := (i >>> 20) &&& 0x1F

/-- funct7 extracts bits 31:25. -/
def funct7 (i : Nat) : Nat := (i >>> 25) &&& 0x7f

/-- immI is the I-type immediate: `(instruction as i32) >> 20` in the source
(arithmetic shift, so sign-extended from bit 11 of the immediate). -/
def immI (i : Nat) : Int := sra (toI32 i) 20

/-- reg reads one register, `self.regs[r as usize]` (every caller masks `r` to 5 bits). -/
def reg (c : RiscvCpu) (r : Nat) : Nat := c.regs.getD r 0

/-- write_reg mirrors `RiscvCpu::write_reg`: writes are discarded for register 0. -/
def write_reg (c : RiscvCpu) (r v : Nat) : RiscvCpu :=
  if r ≠ 0 then { c with regs := c.regs.set r v } else c

/-- RiscvCpu.new mirrors `RiscvCpu::new`: zeroed registers, PC 0, 1024 zero bytes. -/
def RiscvCpu.new : RiscvCpu :=
  { regs := List.replicate 32 0, pc := 0, bus := List.replicate 1024 0 }

/-- store1 writes one byte of memory, `self.bus[a] = v`; out of bounds is the
Rust index panic, returned as a `false` flag with the memory unchanged. -/
def store1 (bus : List Nat) (a v : Nat) : Bool × List Nat :=
  if a < bus.length then (true, bus.set a v) else (false, bus)

/-- store mirrors `RiscvCpu::store`: little-endian byte writes, one at a time,
lowest address first.  The flag is `false` when some byte write was out of
bounds (a panic in Rust); the returned state keeps the bytes already written
before the failing one, as the Rust `&mut self` mutations do. -/
def store (c : RiscvCpu) (addr : Nat) (size : MemSize) (value : Nat) : Bool × RiscvCpu :=
  match size with
  | .byte =>
      let r0 := store1 c.bus addr (value &&& 0xFF)
      (r0.1, { c with bus := r0.2 })
  | .half =>
      let r0 := store1 c.bus addr (value &&& 0xFF)
      if r0.1 then
        let r1 := store1 r0.2 (addr + 1) ((value >>> 8) &&& 0xFF)
        (r1.1, { c with bus := r1.2 })
      else (false, { c with bus := r0.2 })
  | .word =>
      let r0 := store1 c.bus addr (value &&& 0xFF)
      if r0.1 then
        let r1 := store1 r0.2 (addr + 1) ((value >>> 8) &&& 0xFF)
        if r1.1 then
          let r2 := store1 r1.2 (addr + 2) ((value >>> 16) &&& 0xFF)
          if r2.1 then
            let r3 := store1 r2.2 (addr + 3) ((value >>> 24) &&& 0xFF)
            (r3.1, { c with bus := r3.2 })
          else (false, { c with bus := r2.2 })
        else (false, { c with bus := r1.2 })
      else (false, { c with bus := r0.2 })

/-- read_raw mirrors `RiscvCpu::read_raw`: little-endian assembly of 1, 2 or 4
bytes; any out-of-bounds byte read is the Rust index panic (`none`). -/
def read_raw (c : RiscvCpu) (addr : Nat) (size : MemSize) : Option Nat :=
  match size with
  | .byte => c.bus[addr]?
  | .half =>
      match c.bus[addr]?, c.bus[addr + 1]? with
      | some b0, some b1 => some (b0 ||| (b1 <<< 8))
      | _, _ => none
  | .word =>
      match c.bus[addr]?, c.bus[addr + 1]?, c.bus[addr + 2]?, c.bus[addr + 3]? with
      | some b0, some b1, some b2, some b3 =>
          some (b0 ||| (b1 <<< 8) ||| (b2 <<< 16) ||| (b3 <<< 24))
      | _, _, _, _ => none

/-- load mirrors `RiscvCpu::load`: raw read then optional sign extension. -/
def load (c : RiscvCpu) (addr : Nat) (size : MemSize) (signed : Bool) : Option Nat :=
  (read_raw c addr size).map (fun raw =>
    if !signed then raw
    else match size with
      | .byte => toU32 (toI8 raw)
      | .half => toU32 (toI16 raw)
      | .word => raw)

/-- aluR is the `rd_value` match of `RiscvCpu::handle_rtype`; `none` is a
`panic!` arm (invalid funct3/funct7). -/
def aluR (f3 f7 a b : Nat) : Option Nat :=
  if f3 = 0x0 then
    if f7 = 0x00 then some ((a + b) % W)
    else if f7 = 0x20 then some (wsub a b)
    else none
  else if f3 = 0x4 then some (a ^^^ b)
  else if f3 = 0x6 then some (a ||| b)
  else if f3 = 0x7 then some (a &&& b)
  else if f3 = 0x1 then some ((a <<< (b &&& 0x1F)) % W)
  else if f3 = 0x5 then
    if f7 = 0x00 then some (a >>> (b &&& 0x1F))
    else if f7 = 0x20 then some (toU32 (sra (toI32 a) (b &&& 0x1F)))
    else none
  else if f3 = 0x2 then some (if toI32 a < toI32 b then 1 else 0)
  else if f3 = 0x3 then some (if a < b then 1 else 0)
  else none

/-- handle_rtype mirrors `RiscvCpu::handle_rtype`. -/
def handle_rtype (c : RiscvCpu) (instr : Nat) : Option RiscvCpu :=
  (aluR (funct3 instr) (funct7 instr) (reg c (rs1Of instr)) (reg c (rs2Of instr))).map
    (fun v => write_reg c (rdOf instr) v)

/-- aluI is the `rd_value` match of `RiscvCpu::handle_itype`; `none` is a
`panic!` arm.  The i32 addition of the ADDI arm is modelled with wrapping. -/
def aluI (instr a : Nat) : Option Nat :=
  let imm := immI instr
  let f3 := funct3 instr
  if f3 = 0x0 then some (toU32 (toI32 a + imm))
  else if f3 = 0x4 then some (a ^^^ toU32 imm)
  else if f3 = 0x6 then some (a ||| toU32 imm)
  else if f3 = 0x7 then some (a &&& toU32 imm)
  else if f3 = 0x1 then some ((a <<< (toU32 imm &&& 0x1F)) % W)
  else if f3 = 0x5 then
    if funct7 instr = 0x00 then some (a >>> (toU32 imm &&& 0x1F))
    else if funct7 instr = 0x20 then some (toU32 (sra (toI32 a) (toU32 imm &&& 0x1F)))
    else none
  else if f3 = 0x2 then some (if toI32 a < imm then 1 else 0)
  else if f3 = 0x3 then some (if a < toU32 imm then 1 else 0)
  else none

/-- handle_itype mirrors `RiscvCpu::handle_itype` (the write is additionally
guarded by `rd != 0` in the source, on top of the same guard in write_reg). -/
def handle_itype (c : RiscvCpu) (instr : Nat) : Option RiscvCpu :=
  (aluI instr (reg c (rs1Of instr))).map
    (fun v => if rdOf instr ≠ 0 then write_reg c (rdOf instr) v else c)

/-- handle_load mirrors `RiscvCpu::handle_load`; the effective address is
`(rs1 as i32).wrapping_add(imm) as u32`. -/
def handle_load (c : RiscvCpu) (instr : Nat) : Option RiscvCpu :=
  let addr := toU32 (toI32 (reg c (rs1Of instr)) + immI instr)
  let f3 := funct3 instr
  let rdv :=
    if f3 = 0x0 then load c addr .byte true
    else if f3 = 0x1 then load c addr .half true
    else if f3 = 0x2 then load c addr .word true
    else if f3 = 0x4 then load c addr .byte false
    else if f3 = 0x5 then load c addr .half false
    else none
  rdv.map (fun v => write_reg c (rdOf instr) v)

/-- stypeImm is the S-type immediate of `RiscvCpu::handle_store`: bits 31:25
and 11:7 concatenated, then `((imm_u << 20) as i32) >> 20`. -/
def stypeImm (i : Nat) : Int :=
  let immU := (((i >>> 25) &&& 0x7F) <<< 5) ||| ((i >>> 7) &&& 0x1F)
  sra (toI32 ((immU <<< 20) % W)) 20

/-- handle_store mirrors `RiscvCpu::handle_store`. -/
def handle_store (c : RiscvCpu) (instr : Nat) : Option RiscvCpu :=
  let addr := toU32 (toI32 (reg c (rs1Of instr)) + stypeImm instr)
  let v2 := reg c (rs2Of instr)
  let f3 := funct3 instr
  if f3 = 0x0 then (let r := store c addr .byte v2; if r.1 then some r.2 else none)
  else if f3 = 0x1 then (let r := store c addr .half v2; if r.1 then some r.2 else none)
  else if f3 = 0x2 then (let r := store c addr .word v2; if r.1 then some r.2 else none)
  else none

/-- btypeImm is the B-type immediate of `RiscvCpu::handle_btype`: bits
31, 7, 30:25, 11:8 assembled, then `((imm_u32 << 19) as i32) >> 19`. -/
def btypeImm (i : Nat) : Int :=
  let i12 := (i >>> 31) &&& 0x1
  let i11 := (i >>> 7) &&& 0x1
  let i10_5 := (i >>> 25) &&& 0x3F
  let i4_1 := (i >>> 8) &&& 0xF
  let immU := (i12 <<< 12) ||| (i11 <<< 11) ||| (i10_5 <<< 5) ||| (i4_1 <<< 1)
  sra (toI32 ((immU <<< 19) % W)) 19

/-- should_branch is the branch-condition match of `RiscvCpu::handle_btype`;
`none` is the `panic!` arm. -/
def should_branch (f3 a b : Nat) : Option Bool :=
  if f3 = 0x0 then some (a == b)
  else if f3 = 0x1 then some (a != b)
  else if f3 = 0x4 then some (decide (toI32 a < toI32 b))
  else if f3 = 0x5 then some (decide (toI32 b ≤ toI32 a))
  else if f3 = 0x6 then some (decide (a < b))
  else if f3 = 0x7 then some (decide (b ≤ a))
  else none

/-- handle_btype mirrors `RiscvCpu::handle_btype`: it only reads the cpu and
rewrites the `next_pc` out-parameter, returned here as the result. -/
def handle_btype (c : RiscvCpu) (instr : Nat) (next_pc : Nat) : Option Nat :=
  match should_branch (funct3 instr) (reg c (rs1Of instr)) (reg c (rs2Of instr)) with
  | none => none
  | some b => some (if b then toU32 (toI32 c.pc + btypeImm instr) else next_pc)

/-- jtypeImm is the J-type immediate of `RiscvCpu::handle_jal`: bits 31,
19:12, 20, 30:21 assembled, then `((imm_u32 << 11) as i32) >> 11`. -/
def jtypeImm (i : Nat) : Int :=
  let i19_12 := (i >>> 12) &&& 0xFF
  let i11 := (i >>> 20) &&& 0x1
  let i10_1 := (i >>> 21) &&& 0x3FF
  let i20 := (i >>> 31) &&& 0x1
  let immU := (i20 <<< 20) ||| (i19_12 <<< 12) ||| (i11 <<< 11) ||| (i10_1 <<< 1)
  sra (toI32 ((immU <<< 11) % W)) 11

/-- handle_jal mirrors `RiscvCpu::handle_jal`: link write, then the new
`next_pc` (its second component). -/
def handle_jal (c : RiscvCpu) (instr : Nat) : RiscvCpu × Nat :=
  (write_reg c (rdOf instr) ((c.pc + 4) % W), toU32 (toI32 c.pc + jtypeImm instr))

/-- handle_jalr mirrors `RiscvCpu::handle_jalr`: the rs1 value is read before
the link write, the target is not masked to even alignment, and any funct3
other than 0 is a `panic!` (`none`).  The `next_pc` argument of the source is
unconditionally overwritten on the non-panic path. -/
def handle_jalr (c : RiscvCpu) (instr : Nat) : Option (RiscvCpu × Nat) :=
  let rs_value := reg c (rs1Of instr)
  let rd_value := (c.pc + 4) % W
  if funct3 instr = 0x0 then
    some (write_reg c (rdOf instr) rd_value, toU32 (toI32 rs_value + immI instr))
  else none

/-- handle_lui mirrors `RiscvCpu::handle_lui`. -/
def handle_lui (c : RiscvCpu) (instr : Nat) : RiscvCpu :=
  write_reg c (rdOf instr) ((((instr >>> 12) &&& 0xFFFFF) <<< 12) % W)

/-- handle_auipc mirrors `RiscvCpu::handle_auipc`. -/
def handle_auipc (c : RiscvCpu) (instr : Nat) : RiscvCpu :=
  let offset := toI32 ((((instr >>> 12) &&& 0xFFFFF) <<< 12) % W)
  write_reg c (rdOf instr) (toU32 (toI32 c.pc + offset))

/-- fetch mirrors `RiscvCpu::fetch`: the 4-byte slice at `pc` panics
(`none`) when it does not lie inside the memory. -/
def fetch (c : RiscvCpu) : Option Nat :=
  if c.pc + 4 ≤ c.bus.length then
    some ((c.bus.getD c.pc 0) ||| ((c.bus.getD (c.pc + 1) 0) <<< 8) |||
          ((c.bus.getD (c.pc + 2) 0) <<< 16) ||| ((c.bus.getD (c.pc + 3) 0) <<< 24))
  else none

/-- step mirrors `RiscvCpu::step`: fetch, dispatch on the opcode, commit the
PC.  The catch-all arm of the source only prints a message and still commits
`next_pc`, so it is a successful transition here; `none` is a panic reaching
the caller. -/
def step (c : RiscvCpu) : Option RiscvCpu :=
  match fetch c with
  | none => none
  | some instr =>
      let next_pc := (c.pc + 4) % W
      let op := opcode instr
      if op = 0x33 then (handle_rtype c instr).map (fun c2 => { c2 with pc := next_pc })
      else if op = 0x13 then (handle_itype c instr).map (fun c2 => { c2 with pc := next_pc })
      else if op = 0x03 then (handle_load c instr).map (fun c2 => { c2 with pc := next_pc })
      else if op = 0x23 then (handle_store c instr).map (fun c2 => { c2 with pc := next_pc })
      else if op = 0x63 then (handle_btype c instr next_pc).map (fun np => { c with pc := np })
      else if op = 0x6F then
        let r := handle_jal c instr
        some { r.1 with pc := r.2 }
      else if op = 0x67 then (handle_jalr c instr).map (fun r => { r.1 with pc := r.2 })
      else if op = 0x37 then some { handle_lui c instr with pc := next_pc }
      else if op = 0x17 then some { handle_auipc c instr with pc := next_pc }
      else some { c with pc := next_pc }

/-- specBtypeImm assembles the B-type immediate following the specification
text: instruction bit 31 is immediate bit 12, bit 7 is bit 11, bits 30:25 are
bits 10:5, bits 11:8 are bits 4:1, bit 0 is forced to 0, and the result is
sign-extended from bit 12. -/
def specBtypeImm (i : Nat) : Int :=
  let immU := ((((i >>> 31) &&& 0x1) <<< 12) ||| (((i >>> 7) &&& 0x1) <<< 11) |||
               (((i >>> 25) &&& 0x3F) <<< 5) ||| (((i >>> 8) &&& 0xF) <<< 1))
  if immU < 4096 then (immU : Int) else (immU : Int) - 8192

/-- specJtypeImm assembles the J-type immediate following the specification
text: instruction bit 31 is immediate bit 20, bits 19:12 are bits 19:12,
bit 20 is bit 11, bits 30:21 are bits 10:1, bit 0 is forced to 0, and the
result is sign-extended from bit 20. -/
def specJtypeImm (i : Nat) : Int :=
  let immU := ((((i >>> 31) &&& 0x1) <<< 20) ||| (((i >>> 12) &&& 0xFF) <<< 12) |||
               (((i >>> 20) &&& 0x1) <<< 11) ||| (((i >>> 21) &&& 0x3FF) <<< 1))
  if immU < 1048576 then (immU : Int) else (immU : Int) - 2097152

/-- specBranchCond is the branch-condition table as the specification words
it: 0x0 equal, 0x1 not-equal, 0x4 signed less-than, 0x5 signed
greater-or-equal, 0x6 unsigned less-than, 0x7 unsigned greater-or-equal. -/
def specBranchCond (f3 a b : Nat) : Bool :=
  if f3 = 0x0 then a == b
  else if f3 = 0x1 then !(a == b)
  else if f3 = 0x4 then decide (toI32 a < toI32 b)
  else if f3 = 0x5 then decide (toI32 a ≥ toI32 b)
  else if f3 = 0x6 then decide (a < b)
  else decide (a ≥ b)

/-! Helper lemmas about the state shape of the operations. -/

set_option maxRecDepth 100000

theorem write_reg_bus (c : RiscvCpu) (r v : Nat) : (write_reg c r v).bus = c.bus := by
  unfold write_reg; split <;> rfl

theorem write_reg_pc (c : RiscvCpu) (r v : Nat) : (write_reg c r v).pc = c.pc := by
  unfold write_reg; split <;> rfl

theorem reg_zero_write_reg (c : RiscvCpu) (r v : Nat) : reg (write_reg c r v) 0 = reg c 0 := by
  unfold write_reg reg
  split
  · simp only [List.getD_eq_getElem?_getD]
    rw [List.getElem?_set_ne (by assumption)]
  · rfl

theorem store1_length (bus : List Nat) (a v : Nat) : (store1 bus a v).2.length = bus.length := by
  unfold store1; split <;> simp

theorem store_shape (c : RiscvCpu) (a : Nat) (s : MemSize) (v : Nat) :
    (store c a s v).2.regs = c.regs ∧ (store c a s v).2.pc = c.pc ∧
    (store c a s v).2.bus.length = c.bus.length := by
  cases s
  case byte => exact ⟨rfl, rfl, store1_length c.bus a (v &&& 0xFF)⟩
  case half =>
    simp only [store]
    split_ifs <;> exact ⟨rfl, rfl, by simp [store1_length]⟩
  case word =>
    simp only [store]
    split_ifs <;> exact ⟨rfl, rfl, by simp [store1_length]⟩

theorem handle_rtype_shape {c c1 : RiscvCpu} {instr : Nat}
    (h : handle_rtype c instr = some c1) : reg c1 0 = reg c 0 ∧ c1.bus = c.bus := by
  obtain ⟨v, _, rfl⟩ := Option.map_eq_some'.mp h
  exact ⟨reg_zero_write_reg c (rdOf instr) v, write_reg_bus c (rdOf instr) v⟩

theorem handle_itype_shape {c c1 : RiscvCpu} {instr : Nat}
    (h : handle_itype c instr = some c1) : reg c1 0 = reg c 0 ∧ c1.bus = c.bus := by
  obtain ⟨v, _, rfl⟩ := Option.map_eq_some'.mp h
  by_cases hrd : rdOf instr ≠ 0
  · simp only [if_pos hrd]
    exact ⟨reg_zero_write_reg c (rdOf instr) v, write_reg_bus c (rdOf instr) v⟩
  · rw [if_neg hrd]
    exact ⟨rfl, rfl⟩

theorem handle_load_shape {c c1 : RiscvCpu} {instr : Nat}
    (h : handle_load c instr = some c1) : reg c1 0 = reg c 0 ∧ c1.bus = c.bus := by
  obtain ⟨v, _, rfl⟩ := Option.map_eq_some'.mp h
  exact ⟨reg_zero_write_reg c (rdOf instr) v, write_reg_bus c (rdOf instr) v⟩

theorem reg_of_regs_eq {c c1 : RiscvCpu} (h : c1.regs = c.regs) (r : Nat) :
    reg c1 r = reg c r := by
  unfold reg; rw [h]

theorem handle_store_shape {c c1 : RiscvCpu} {instr : Nat}
    (h : handle_store c instr = some c1) :
    reg c1 0 = reg c 0 ∧ c1.bus.length = c.bus.length := by
  simp only [handle_store] at h
  split_ifs at h <;> simp only [Option.some.injEq] at h <;> try exact absurd h (by simp)
  all_goals
    obtain rfl := h.symm
    refine ⟨reg_of_regs_eq (store_shape c _ _ _).1 0, (store_shape c _ _ _).2.2⟩

theorem step_shape (c c2 : RiscvCpu) (h : step c = some c2) :
    reg c2 0 = reg c 0 ∧ c2.bus.length = c.bus.length := by
  unfold step at h
  cases hf : fetch c with
  | none => rw [hf] at h; exact absurd h (by simp)
  | some instr =>
    rw [hf] at h
    simp only at h
    split_ifs at h with h1 h2 h3 h4 h5 h6 h7 h8 h9
    · obtain ⟨c1, hc1, rfl⟩ := Option.map_eq_some'.mp h
      obtain ⟨hr, hb⟩ := handle_rtype_shape hc1
      exact ⟨hr, by rw [hb]⟩
    · obtain ⟨c1, hc1, rfl⟩ := Option.map_eq_some'.mp h
      obtain ⟨hr, hb⟩ := handle_itype_shape hc1
      exact ⟨hr, by rw [hb]⟩
    · obtain ⟨c1, hc1, rfl⟩ := Option.map_eq_some'.mp h
      obtain ⟨hr, hb⟩ := handle_load_shape hc1
      exact ⟨hr, by rw [hb]⟩
    · obtain ⟨c1, hc1, rfl⟩ := Option.map_eq_some'.mp h
      obtain ⟨hr, hb⟩ := handle_store_shape hc1
      exact ⟨hr, hb⟩
    · obtain ⟨np, _, rfl⟩ := Option.map_eq_some'.mp h
      exact ⟨rfl, rfl⟩
    · simp only [Option.some.injEq] at h
      obtain rfl := h.symm
      exact ⟨reg_zero_write_reg c (rdOf instr) ((c.pc + 4) % W),
        congrArg List.length (write_reg_bus c (rdOf instr) ((c.pc + 4) % W))⟩
    · obtain ⟨p, hp, rfl⟩ := Option.map_eq_some'.mp h
      unfold handle_jalr at hp
      split_ifs at hp with hf3
      simp only [Option.some.injEq] at hp
      obtain rfl := hp.symm
      exact ⟨reg_zero_write_reg c (rdOf instr) ((c.pc + 4) % W),
        congrArg List.length (write_reg_bus c (rdOf instr) ((c.pc + 4) % W))⟩
    · simp only [Option.some.injEq] at h
      obtain rfl := h.symm
      exact ⟨reg_zero_write_reg c (rdOf instr) _,
        congrArg List.length (write_reg_bus c (rdOf instr) _)⟩
    · simp only [Option.some.injEq] at h
      obtain rfl := h.symm
      exact ⟨reg_zero_write_reg c (rdOf instr) _,
        congrArg List.length (write_reg_bus c (rdOf instr) _)⟩
    · simp only [Option.some.injEq] at h
      obtain rfl := h.symm
      exact ⟨rfl, rfl⟩

/-! Claim theorems. -/

/-- cpuInvalidR is a fresh simulator whose first instruction word is
0x02000033: opcode 0x33 (R-type) with funct3 0x0 and funct7 0x01, a
funct3/funct7 combination outside the defined table. -/
def cpuInvalidR : RiscvCpu :=
  { regs := List.replicate 32 0, pc := 0,
    bus := [0x33, 0x00, 0x00, 0x02] ++ List.replicate 1020 0 }

/-- C1 (code bug): on the fresh simulator the fetched word is 0x00000000,
whose opcode 0x00 is outside the dispatch table; the step nevertheless
completes as a silent no-op that advances the PC to 4, reporting nothing to
the caller.  And for an in-table opcode with an undefined funct3/funct7
combination (word 0x02000033) the handler — and so the whole step — is a
panic, a crash rather than a reported failure. -/
theorem invalid_instruction_step_behavior :
    step RiscvCpu.new = some { RiscvCpu.new with pc := 4 } ∧
    handle_rtype RiscvCpu.new 0x02000033 = none ∧
    step cpuInvalidR = none := by decide

/-- C2 (code bug): a half-word store at address 1023 of a 1024-byte memory
must fail all-or-nothing, but the code writes the in-bounds low byte first
and only then hits the out-of-bounds index panic: after the failing store the
byte at 1023 holds 0x34 (low byte of the stored value) although it was 0
before, and the store did not complete. -/
theorem store_partial_write_at_bound :
    (store RiscvCpu.new 1023 MemSize.half 0x1234).1 = false ∧
    (store RiscvCpu.new 1023 MemSize.half 0x1234).2.bus.getD 1023 0 = 0x34 ∧
    RiscvCpu.new.bus.getD 1023 0 = 0 := by decide

/-- C3: register 0 is invariant: if regs[0] = 0 and one step completes, then
regs[0] = 0 afterwards, whatever instruction was executed (writes to rd = 0
are discarded by write_reg). -/
theorem x0_invariant_after_step :
    ∀ c c2 : RiscvCpu, reg c 0 = 0 → step c = some c2 → reg c2 0 = 0 := by
  intro c c2 h0 hs
  rw [(step_shape c c2 hs).1, h0]

/-- Witness for C3 at the fresh simulator: its first step succeeds and
register 0 stays 0. -/
theorem x0_invariant_after_step_witness : reg { RiscvCpu.new with pc := 4 } 0 = 0 :=
  x0_invariant_after_step RiscvCpu.new { RiscvCpu.new with pc := 4 } (by decide) (by decide)

/-- C10: a step begins by fetching the 4 bytes at [PC, PC+4) as a
little-endian word; when PC + 4 exceeds the memory capacity the fetch — and
with it the whole step — is a fault (the slice index has no defined result),
and under PC + 4 ≤ capacity the fetch always succeeds. -/
theorem fetch_bounds : ∀ c : RiscvCpu,
    (c.pc + 4 ≤ c.bus.length →
      fetch c = some ((c.bus.getD c.pc 0) ||| ((c.bus.getD (c.pc + 1) 0) <<< 8) |||
        ((c.bus.getD (c.pc + 2) 0) <<< 16) ||| ((c.bus.getD (c.pc + 3) 0) <<< 24))) ∧
    (c.bus.length < c.pc + 4 → fetch c = none ∧ step c = none) := by
  intro c
  constructor
  · intro h; unfold fetch; rw [if_pos h]
  · intro h
    have hf : fetch c = none := by unfold fetch; rw [if_neg (by omega)]
    refine ⟨hf, ?_⟩
    unfold step; rw [hf]

/-- Witness for C10: the fresh simulator fetches word 0, and a simulator with
empty memory faults at fetch, failing the whole step. -/
theorem fetch_bounds_witness :
    fetch RiscvCpu.new = some 0 ∧
    fetch { regs := [], pc := 0, bus := [] } = none ∧
    step { regs := [], pc := 0, bus := [] } = none := by
  have h1 := (fetch_bounds RiscvCpu.new).1 (by decide)
  have h2 := (fetch_bounds { regs := [], pc := 0, bus := [] }).2 (by decide)
  exact ⟨by rw [h1]; decide, h2.1, h2.2⟩

/-! Arithmetic lemmas: sign extension by shifting, disjoint bitwise or,
wrapping casts. -/

theorem sra_sext (x w sh : Nat) (hx : x < 2 ^ (w + 1)) (hsh : w + 1 + sh = 32) :
    sra (toI32 ((x <<< sh) % W)) sh =
      if x < 2 ^ w then (x : Int) else (x : Int) - 2 ^ (w + 1) := by
  have hW : W = 2 ^ 32 := by norm_num [W]
  have hH : H = 2 ^ 31 := by norm_num [H]
  have hsplit : (2 : Nat) ^ (w + 1) * 2 ^ sh = 2 ^ 32 := by
    rw [← pow_add, hsh]
  have hHsplit : (2 : Nat) ^ w * 2 ^ sh = 2 ^ 31 := by
    rw [← pow_add]
    congr 1
    omega
  have hpos : (0 : Nat) < 2 ^ sh := by positivity
  have hlt : x * 2 ^ sh < 2 ^ 32 := by
    rw [← hsplit]
    exact mul_lt_mul_of_pos_right hx hpos
  have hmod : (x <<< sh) % W = x * 2 ^ sh := by
    rw [Nat.shiftLeft_eq, hW, Nat.mod_eq_of_lt hlt]
  rw [hmod]
  unfold toI32 sra
  by_cases hc : x < 2 ^ w
  · have h1 : x * 2 ^ sh < H := by
      rw [hH, ← hHsplit]
      exact mul_lt_mul_of_pos_right hc hpos
    rw [if_pos h1, if_pos hc]
    push_cast
    exact Int.mul_ediv_cancel _ (by positivity)
  · have h1 : ¬ (x * 2 ^ sh < H) := by
      rw [hH, ← hHsplit]
      exact not_lt.mpr (Nat.mul_le_mul_right _ (not_lt.mp hc))
    rw [if_neg h1, if_neg hc]
    have hnum : ((x * 2 ^ sh : Nat) : Int) - (W : Int) = ((x : Int) - 2 ^ (w + 1)) * 2 ^ sh := by
      have hWi : (W : Int) = 2 ^ (w + 1) * 2 ^ sh := by
        rw [hW, ← hsplit]; push_cast; ring
      rw [hWi]; push_cast; ring
    rw [hnum]
    exact Int.mul_ediv_cancel _ (by positivity)

theorem sext13_eq (u : Nat) (hu : u < 2 ^ 13) :
    sra (toI32 ((u <<< 19) % W)) 19 = if u < 4096 then (u : Int) else (u : Int) - 8192 := by
  have h := sra_sext u 12 19 hu (by norm_num)
  rw [h]
  norm_num

theorem sext21_eq (u : Nat) (hu : u < 2 ^ 21) :
    sra (toI32 ((u <<< 11) % W)) 11 =
      if u < 1048576 then (u : Int) else (u : Int) - 2097152 := by
  have h := sra_sext u 20 11 hu (by norm_num)
  rw [h]
  norm_num

theorem sext12_eq (u : Nat) (hu : u < 2 ^ 12) :
    sra (toI32 ((u <<< 20) % W)) 20 = if u < 2048 then (u : Int) else (u : Int) - 4096 := by
  have h := sra_sext u 11 20 hu (by norm_num)
  rw [h]
  norm_num

theorem shl_lt_of_le {x m k b : Nat} (hx : x ≤ m) (hb : (m + 1) * 2 ^ k ≤ b) : x <<< k < b := by
  rw [Nat.shiftLeft_eq]
  have hp : (0 : Nat) < 2 ^ k := by positivity
  have : x * 2 ^ k < (m + 1) * 2 ^ k := mul_lt_mul_of_pos_right (by omega) hp
  omega

theorem or_eq_add {a b : Nat} (n : Nat) (hb : b < 2 ^ n) :
    (a * 2 ^ n) ||| b = a * 2 ^ n + b := by
  apply Nat.eq_of_testBit_eq
  intro j
  rw [Nat.testBit_or, mul_comm a (2 ^ n), Nat.testBit_mul_pow_two_add a hb j,
    mul_comm (2 ^ n) a, ← Nat.shiftLeft_eq, Nat.testBit_shiftLeft]
  by_cases hj : j < n
  · simp [hj, Nat.not_le.mpr hj]
  · have hbj : b.testBit j = false :=
      Nat.testBit_lt_two_pow
        (lt_of_lt_of_le hb (Nat.pow_le_pow_right (by norm_num) (Nat.not_lt.mp hj)))
    simp [hj, Nat.not_lt.mp hj, hbj]

/-- C7: the B-type and J-type immediates computed by the code (assemble the
scrambled fields, shift to the top of a 32-bit word, reinterpret as i32 and
arithmetically shift back) agree with the specification description
(assemble instruction bits 31/7/30:25/11:8 into immediate bits
12/11/10:5/4:1 with bit 0 zero, sign-extend from bit 12; and bits
31/19:12/20/30:21 into immediate bits 20/19:12/11/10:1 with bit 0 zero,
sign-extend from bit 20) for every instruction word. -/
theorem btype_jtype_immediate_assembly :
    ∀ i : Nat, btypeImm i = specBtypeImm i ∧ jtypeImm i = specJtypeImm i := by
  intro i
  constructor
  · have hu : ((((i >>> 31) &&& 0x1) <<< 12) ||| (((i >>> 7) &&& 0x1) <<< 11) |||
        (((i >>> 25) &&& 0x3F) <<< 5) ||| (((i >>> 8) &&& 0xF) <<< 1)) < 2 ^ 13 :=
      Nat.or_lt_two_pow
        (Nat.or_lt_two_pow
          (Nat.or_lt_two_pow
            (shl_lt_of_le Nat.and_le_right (by norm_num))
            (shl_lt_of_le Nat.and_le_right (by norm_num)))
          (shl_lt_of_le Nat.and_le_right (by norm_num)))
        (shl_lt_of_le Nat.and_le_right (by norm_num))
    simp only [btypeImm, specBtypeImm]
    rw [sext13_eq _ hu]
  · have hu : ((((i >>> 31) &&& 0x1) <<< 20) ||| (((i >>> 12) &&& 0xFF) <<< 12) |||
        (((i >>> 20) &&& 0x1) <<< 11) ||| (((i >>> 21) &&& 0x3FF) <<< 1)) < 2 ^ 21 :=
      Nat.or_lt_two_pow
        (Nat.or_lt_two_pow
          (Nat.or_lt_two_pow
            (shl_lt_of_le Nat.and_le_right (by norm_num))
            (shl_lt_of_le Nat.and_le_right (by norm_num)))
          (shl_lt_of_le Nat.and_le_right (by norm_num)))
        (shl_lt_of_le Nat.and_le_right (by norm_num))
    simp only [jtypeImm, specJtypeImm]
    rw [sext21_eq _ hu]

theorem toU32_toI32_add (a : Nat) (imm : Int) :
    toU32 (toI32 a + imm) = toU32 ((a : Int) + imm) := by
  unfold toU32 toI32
  split_ifs with h
  · rfl
  · congr 1
    rw [show (a : Int) - (W : Int) + imm = ((a : Int) + imm) + (W : Int) * (-1) by ring,
      Int.add_mul_emod_self_left]

theorem wsub_eq_toU32_sub {a b : Nat} (ha : a < W) (hb : b < W) :
    wsub a b = toU32 ((a : Int) - (b : Int)) := by
  unfold wsub toU32 W at *
  omega

/-- C4: the ALU wraps silently modulo 2^32: R-type ADD (funct3 0, funct7 0)
is (rs1 + rs2) mod 2^32, R-type SUB (funct7 0x20) is the integer difference
rs1 - rs2 reduced mod 2^32, and I-type ADDI (funct3 0) is rs1 plus the
sign-extended 12-bit immediate, reduced mod 2^32; none of them is an error. -/
theorem alu_wraps_mod_2_32 : ∀ a b : Nat, a < W → b < W →
    aluR 0x0 0x00 a b = some ((a + b) % W) ∧
    aluR 0x0 0x20 a b = some (toU32 ((a : Int) - (b : Int))) ∧
    (∀ instr : Nat, funct3 instr = 0x0 → aluI instr a = some (toU32 ((a : Int) + immI instr))) := by
  intro a b ha hb
  refine ⟨rfl, ?_, ?_⟩
  · exact congrArg some (wsub_eq_toU32_sub ha hb)
  · intro instr h3
    simp only [aluI]
    rw [h3]
    norm_num
    exact toU32_toI32_add a (immI instr)

/-- Witness for C4 at the examples named by the specification:
0xFFFFFFFF + 1 wraps to 0, 0 - 1 wraps to 0xFFFFFFFF, and an ADDI of
immediate 1 to register value 0xFFFFFFFF wraps to 0. -/
theorem alu_wraps_mod_2_32_witness :
    aluR 0x0 0x00 0xFFFFFFFF 1 = some 0 ∧
    aluR 0x0 0x20 0 1 = some 0xFFFFFFFF ∧
    aluI 0x00100000 0xFFFFFFFF = some 0 := by
  have h1 := alu_wraps_mod_2_32 0xFFFFFFFF 1 (by norm_num [W]) (by norm_num [W])
  have h2 := alu_wraps_mod_2_32 0 1 (by norm_num [W]) (by norm_num [W])
  refine ⟨?_, ?_, ?_⟩
  · rw [h1.1]; decide
  · rw [h2.2.1]; decide
  · rw [h1.2.2 0x00100000 (by decide)]; decide

/-! Byte-level lemmas for the store/load round trip. -/

theorem and_255_mod (v : Nat) : v &&& 0xFF = v % 256 := by
  have h := Nat.and_pow_two_sub_one_eq_mod v 8
  norm_num at h; exact h

theorem shr8_and_255 (v : Nat) : (v >>> 8) &&& 0xFF = v / 256 % 256 := by
  rw [and_255_mod (v >>> 8), Nat.shiftRight_eq_div_pow]

theorem shr16_and_255 (v : Nat) : (v >>> 16) &&& 0xFF = v / 65536 % 256 := by
  rw [and_255_mod (v >>> 16), Nat.shiftRight_eq_div_pow]

theorem shr24_and_255 (v : Nat) : (v >>> 24) &&& 0xFF = v / 16777216 % 256 := by
  rw [and_255_mod (v >>> 24), Nat.shiftRight_eq_div_pow]

theorem le_bytes_recombine (v : Nat) (hv : v < W) :
    (v &&& 0xFF) ||| (((v >>> 8) &&& 0xFF) <<< 8) ||| (((v >>> 16) &&& 0xFF) <<< 16) |||
      (((v >>> 24) &&& 0xFF) <<< 24) = v := by
  have hW : W = 4294967296 := rfl
  rw [and_255_mod, shr8_and_255, shr16_and_255, shr24_and_255,
    Nat.shiftLeft_eq, Nat.shiftLeft_eq, Nat.shiftLeft_eq]
  rw [Nat.lor_comm (v % 256)]
  rw [or_eq_add 8 (by omega)]
  rw [Nat.lor_comm _ (v / 65536 % 256 * 2 ^ 16)]
  rw [or_eq_add 16 (by omega)]
  rw [Nat.lor_comm _ (v / 16777216 % 256 * 2 ^ 24)]
  rw [or_eq_add 24 (by omega)]
  omega

theorem store1_in (bus : List Nat) (a v : Nat) (h : a < bus.length) :
    store1 bus a v = (true, bus.set a v) := by
  unfold store1; rw [if_pos h]

/-- quadSet abbreviates the four little-endian byte writes of a word store. -/
def quadSet (l : List Nat) (addr v : Nat) : List Nat :=
  (((l.set addr (v &&& 0xFF)).set (addr + 1) ((v >>> 8) &&& 0xFF)).set
    (addr + 2) ((v >>> 16) &&& 0xFF)).set (addr + 3) ((v >>> 24) &&& 0xFF)

theorem store_word_in_bounds (c : RiscvCpu) (addr v : Nat) (hb : addr + 4 ≤ c.bus.length) :
    store c addr MemSize.word v = (true, { c with bus := quadSet c.bus addr v }) := by
  have e0 := store1_in c.bus addr (v &&& 0xFF) (by omega)
  have e1 := store1_in (c.bus.set addr (v &&& 0xFF)) (addr + 1) ((v >>> 8) &&& 0xFF)
    (by rw [List.length_set]; omega)
  have e2 := store1_in ((c.bus.set addr (v &&& 0xFF)).set (addr + 1) ((v >>> 8) &&& 0xFF))
    (addr + 2) ((v >>> 16) &&& 0xFF) (by rw [List.length_set, List.length_set]; omega)
  have e3 := store1_in (((c.bus.set addr (v &&& 0xFF)).set (addr + 1) ((v >>> 8) &&& 0xFF)).set
    (addr + 2) ((v >>> 16) &&& 0xFF)) (addr + 3) ((v >>> 24) &&& 0xFF)
    (by rw [List.length_set, List.length_set, List.length_set]; omega)
  simp only [store, e0, e1, e2, e3, quadSet]
  simp

/-- C8: multi-byte accesses are little-endian and round-trip: a word store at
an in-bounds 4-byte range succeeds, loading a word back yields the stored
value, and the four bytes at addr..addr+3 hold the least- to most-significant
bytes of the value. -/
theorem word_store_load_roundtrip_little_endian :
    ∀ (c : RiscvCpu) (addr v : Nat), v < W → addr + 4 ≤ c.bus.length →
    (store c addr MemSize.word v).1 = true ∧
    read_raw (store c addr MemSize.word v).2 addr MemSize.word = some v ∧
    (store c addr MemSize.word v).2.bus.getD addr 0 = v % 256 ∧
    (store c addr MemSize.word v).2.bus.getD (addr + 1) 0 = v / 256 % 256 ∧
    (store c addr MemSize.word v).2.bus.getD (addr + 2) 0 = v / 65536 % 256 ∧
    (store c addr MemSize.word v).2.bus.getD (addr + 3) 0 = v / 16777216 % 256 := by
  intro c addr v hv hb
  rw [store_word_in_bounds c addr v hb]
  set L := quadSet c.bus addr v with hL
  have ha0 : L[addr]? = some (v &&& 0xFF) := by
    rw [hL, quadSet, List.getElem?_set_ne (by omega), List.getElem?_set_ne (by omega),
      List.getElem?_set_ne (by omega), List.getElem?_set_self (by omega)]
  have ha1 : L[addr + 1]? = some ((v >>> 8) &&& 0xFF) := by
    rw [hL, quadSet, List.getElem?_set_ne (by omega), List.getElem?_set_ne (by omega),
      List.getElem?_set_self (by rw [List.length_set]; omega)]
  have ha2 : L[addr + 2]? = some ((v >>> 16) &&& 0xFF) := by
    rw [hL, quadSet, List.getElem?_set_ne (by omega),
      List.getElem?_set_self (by rw [List.length_set, List.length_set]; omega)]
  have ha3 : L[addr + 3]? = some ((v >>> 24) &&& 0xFF) := by
    rw [hL, quadSet, List.getElem?_set_self
      (by rw [List.length_set, List.length_set, List.length_set]; omega)]
  have hrr : read_raw { c with bus := L } addr MemSize.word =
      some ((v &&& 0xFF) ||| (((v >>> 8) &&& 0xFF) <<< 8) ||| (((v >>> 16) &&& 0xFF) <<< 16) |||
        (((v >>> 24) &&& 0xFF) <<< 24)) := by
    simp only [read_raw]
    rw [ha0, ha1, ha2, ha3]
  refine ⟨rfl, ?_, ?_, ?_, ?_, ?_⟩
  · rw [hrr]
    exact congrArg some (le_bytes_recombine v hv)
  · show L.getD addr 0 = v % 256
    rw [List.getD_eq_getElem?_getD, ha0, Option.getD_some]
    exact and_255_mod v
  · show L.getD (addr + 1) 0 = v / 256 % 256
    rw [List.getD_eq_getElem?_getD, ha1, Option.getD_some]
    exact shr8_and_255 v
  · show L.getD (addr + 2) 0 = v / 65536 % 256
    rw [List.getD_eq_getElem?_getD, ha2, Option.getD_some]
    exact shr16_and_255 v
  · show L.getD (addr + 3) 0 = v / 16777216 % 256
    rw [List.getD_eq_getElem?_getD, ha3, Option.getD_some]
    exact shr24_and_255 v

/-- Witness for C8 at the specification example: word 0x44332211 stored at
0x200 of the fresh simulator reads back as 0x44332211 and leaves bytes
0x11, 0x22, 0x33, 0x44 at addresses 0x200..0x203. -/
theorem word_store_load_roundtrip_little_endian_witness :
    read_raw (store RiscvCpu.new 0x200 MemSize.word 0x44332211).2 0x200 MemSize.word =
      some 0x44332211 ∧
    (store RiscvCpu.new 0x200 MemSize.word 0x44332211).2.bus.getD 0x200 0 = 0x11 ∧
    (store RiscvCpu.new 0x200 MemSize.word 0x44332211).2.bus.getD 0x201 0 = 0x22 ∧
    (store RiscvCpu.new 0x200 MemSize.word 0x44332211).2.bus.getD 0x202 0 = 0x33 ∧
    (store RiscvCpu.new 0x200 MemSize.word 0x44332211).2.bus.getD 0x203 0 = 0x44 := by
  have h := word_store_load_roundtrip_little_endian RiscvCpu.new 0x200 0x44332211
    (by norm_num [W]) (by decide)
  refine ⟨h.2.1, ?_, ?_, ?_, ?_⟩
  · rw [h.2.2.1]
  · rw [show (0x201 : Nat) = 0x200 + 1 from rfl, h.2.2.2.1]
  · rw [show (0x202 : Nat) = 0x200 + 2 from rfl, h.2.2.2.2.1]
  · rw [show (0x203 : Nat) = 0x200 + 3 from rfl, h.2.2.2.2.2]

/-- C5: for a fetched JALR (opcode 0x67, funct3 0x0) the step writes
rd = old PC + 4 (discarded when rd = 0 by write_reg) and sets the next PC to
the OLD rs1 value plus the sign-extended immediate, with 32-bit wraparound
and no masking of bit 0; the target is computed from the register file before
the rd write, so rd and rs1 may alias. -/
theorem jalr_reads_rs1_before_writing_rd :
    ∀ (c : RiscvCpu) (instr : Nat), fetch c = some instr → opcode instr = 0x67 →
    funct3 instr = 0x0 →
    step c = some { write_reg c (rdOf instr) ((c.pc + 4) % W) with
      pc := toU32 (toI32 (reg c (rs1Of instr)) + immI instr) } := by
  intro c instr hf hop h3
  simp [step, hf, hop, handle_jalr, h3]

/-- Witness for C5, the aliasing example of the specification: jalr x1, x1, 0
(word 0x000080E7) with x1 = 0x300 and PC = 0 ends with x1 = 4 (the link
PC + 4) and PC = 0x300 (the pre-write register value). -/
theorem jalr_reads_rs1_before_writing_rd_witness :
    step { regs := (List.replicate 32 0).set 1 0x300, pc := 0,
           bus := [0xE7, 0x80, 0x00, 0x00] } =
      some { regs := (List.replicate 32 0).set 1 4, pc := 0x300,
             bus := [0xE7, 0x80, 0x00, 0x00] } := by
  have h := jalr_reads_rs1_before_writing_rd
    { regs := (List.replicate 32 0).set 1 0x300, pc := 0, bus := [0xE7, 0x80, 0x00, 0x00] }
    0x80E7 (by decide) (by decide) (by decide)
  rw [h]; decide

/-- C6: for a fetched B-type instruction (opcode 0x63) with one of the six
defined funct3 values, the step leaves registers and memory unchanged and
sets the next PC to PC plus the sign-extended branch immediate (wrapping)
when the condition of the specification table holds on rs1 and rs2, and to
PC + 4 otherwise. -/
theorem btype_branch_step :
    ∀ (c : RiscvCpu) (instr : Nat), fetch c = some instr → opcode instr = 0x63 →
    (funct3 instr = 0x0 ∨ funct3 instr = 0x1 ∨ funct3 instr = 0x4 ∨ funct3 instr = 0x5 ∨
     funct3 instr = 0x6 ∨ funct3 instr = 0x7) →
    step c = some { c with pc :=
      (if specBranchCond (funct3 instr) (reg c (rs1Of instr)) (reg c (rs2Of instr))
       then toU32 (toI32 c.pc + btypeImm instr) else (c.pc + 4) % W) } := by
  intro c instr hf hop h3
  have hsb : should_branch (funct3 instr) (reg c (rs1Of instr)) (reg c (rs2Of instr)) =
      some (specBranchCond (funct3 instr) (reg c (rs1Of instr)) (reg c (rs2Of instr))) := by
    rcases h3 with h | h | h | h | h | h <;> rw [h] <;>
      simp [should_branch, specBranchCond, ge_iff_le, bne]
  simp [step, hf, hop, handle_btype, hsb]

/-- Witness for C6: beq x0, x0, +8 (word 0x00000463) at PC 0 is taken and
sets PC to 8, leaving registers and memory unchanged. -/
theorem btype_branch_step_witness :
    step { regs := List.replicate 32 0, pc := 0, bus := [0x63, 0x04, 0x00, 0x00] } =
      some { regs := List.replicate 32 0, pc := 8, bus := [0x63, 0x04, 0x00, 0x00] } := by
  have h := btype_branch_step
    { regs := List.replicate 32 0, pc := 0, bus := [0x63, 0x04, 0x00, 0x00] }
    0x463 (by decide) (by decide) (Or.inl (by decide))
  rw [h]; decide

/-- C9: the fresh simulator has 32 registers all 0, PC 0, and exactly 1024
bytes of memory all 0; and no successful step ever changes the memory
capacity. -/
theorem initial_state_and_fixed_capacity :
    RiscvCpu.new.regs.length = 32 ∧ (∀ i, i < 32 → reg RiscvCpu.new i = 0) ∧
    RiscvCpu.new.pc = 0 ∧ RiscvCpu.new.bus.length = 1024 ∧
    (∀ i, i < 1024 → RiscvCpu.new.bus.getD i 0 = 0) ∧
    (∀ c c2 : RiscvCpu, step c = some c2 → c2.bus.length = c.bus.length) := by
  refine ⟨by simp [RiscvCpu.new], ?_, rfl, by simp [RiscvCpu.new], ?_, ?_⟩
  · intro i hi
    unfold reg RiscvCpu.new
    rw [List.getD_eq_getElem?_getD, List.getElem?_replicate]
    simp [hi]
  · intro i hi
    unfold RiscvCpu.new
    rw [List.getD_eq_getElem?_getD, List.getElem?_replicate]
    simp [hi]
  · intro c c2 h
    exact (step_shape c c2 h).2

/-- Witness for C9: sampled register and byte of the fresh simulator, and
capacity preservation across its first step. -/
theorem initial_state_and_fixed_capacity_witness :
    reg RiscvCpu.new 5 = 0 ∧ RiscvCpu.new.bus.getD 1023 0 = 0 ∧
    ({ RiscvCpu.new with pc := 4 } : RiscvCpu).bus.length = RiscvCpu.new.bus.length :=
  ⟨initial_state_and_fixed_capacity.2.1 5 (by decide),
   initial_state_and_fixed_capacity.2.2.2.2.1 1023 (by decide),
   initial_state_and_fixed_capacity.2.2.2.2.2 RiscvCpu.new { RiscvCpu.new with pc := 4 }
     (by decide)⟩
